import Mathlib

/-!
Shallow embedding of the booglanim scene compositor and frame pipeline
(`src-tauri/src/interface.rs`, `src-tauri/src/renderer/render_data.rs`,
`src-tauri/src/renderer/video.rs`).

Conventions of the embedding:
* `f32` scalars are embedded as `ℚ` (exact arithmetic; none of the verified
  claims depends on rounding of binary floating point).
* The trigonometric calls `self.angle.to_radians().cos()` / `.sin()` of
  `Transform::to_transformation` are embedded as explicit function
  parameters `cosA sinA : ℚ → ℚ`: every theorem is proved for an arbitrary
  choice, and concrete instances use the exact values of cosine and sine at
  the chosen angles (all concrete scenes below use angle `0` or `90`,
  where cosine and sine are exact even in `f32`).
* Rust panics (`panic!`, indexing a `HashMap` at a missing key, `expect`)
  are embedded as `Except.error` values of `RenderError`, so "the frame
  aborts" is observable as an `.error` result.
* External collaborators (wgpu device and buffers, the lyon tessellator,
  the ffmpeg encoder) are modelled at their call boundary: the embedding
  records exactly the data the repository code hands to them (path control
  points, stroke options, quad vertices, presentation timestamps).
-/

namespace Booglanim

/-- Embeds `Point` from `interface.rs`: a 2D point with `f32` coordinates. -/
structure Point where
  x : ℚ
  y : ℚ
deriving DecidableEq

/-- Embeds `Rect` from `interface.rs`. -/
structure Rect where
  x : ℚ
  y : ℚ
  w : ℚ
  h : ℚ
deriving DecidableEq

/-- Embeds `Color` from `interface.rs`: an sRGB `u8` triple. -/
structure Color where
  r : ℕ
  g : ℕ
  b : ℕ
deriving DecidableEq

/-- Embeds `Transform` from `interface.rs`. -/
structure Transform where
  pos : Point
  scale : Point
  angle : ℚ
deriving DecidableEq

/-- Embeds `Transform::identity` from `interface.rs`. -/
def Transform.identity : Transform :=
  { pos := ⟨0, 0⟩, scale := ⟨1, 1⟩, angle := 0 }

/-- Embeds `Transformation2D` from `interface.rs`: a row-major 3×3 matrix
`[[m00,m01,m02],[m10,m11,m12],[m20,m21,m22]]`. -/
structure Transformation2D where
  m00 : ℚ
  m01 : ℚ
  m02 : ℚ
  m10 : ℚ
  m11 : ℚ
  m12 : ℚ
  m20 : ℚ
  m21 : ℚ
  m22 : ℚ
deriving DecidableEq

/-- Embeds `Transformation2D::multiply`: the source's triple loop
`result[i][j] += self.0[i][k] * other.0[k][j]`, written out entrywise. -/
def Transformation2D.multiply (self other : Transformation2D) : Transformation2D where
  m00 := self.m00 * other.m00 + self.m01 * other.m10 + self.m02 * other.m20
  m01 := self.m00 * other.m01 + self.m01 * other.m11 + self.m02 * other.m21
  m02 := self.m00 * other.m02 + self.m01 * other.m12 + self.m02 * other.m22
  m10 := self.m10 * other.m00 + self.m11 * other.m10 + self.m12 * other.m20
  m11 := self.m10 * other.m01 + self.m11 * other.m11 + self.m12 * other.m21
  m12 := self.m10 * other.m02 + self.m11 * other.m12 + self.m12 * other.m22
  m20 := self.m20 * other.m00 + self.m21 * other.m10 + self.m22 * other.m20
  m21 := self.m20 * other.m01 + self.m21 * other.m11 + self.m22 * other.m21
  m22 := self.m20 * other.m02 + self.m21 * other.m12 + self.m22 * other.m22

/-- Embeds `Transformation2D::apply_to`: each output row is the dot product of a
matrix row with `[x, y, 1]` (i.e. the point is a column vector multiplied
on the right), followed by the perspective divide by the homogeneous
component.  (The matrices built by this repository always have third row
`[0,0,1]`, so the divisor is `1` everywhere the code runs.) -/
def Transformation2D.applyTo (self : Transformation2D) (pt : Point) : Point :=
  let r0 := self.m00 * pt.x + self.m01 * pt.y + self.m02 * 1
  let r1 := self.m10 * pt.x + self.m11 * pt.y + self.m12 * 1
  let r2 := self.m20 * pt.x + self.m21 * pt.y + self.m22 * 1
  ⟨r0 / r2, r1 / r2⟩

/-- The `displacement` matrix built inside `Transform::to_transformation`. -/
def displacementMatrix (pos : Point) : Transformation2D :=
  ⟨1, 0, pos.x,
   0, 1, pos.y,
   0, 0, 1⟩

/-- The `scale` matrix built inside `Transform::to_transformation`. -/
def scaleMatrix (scale : Point) : Transformation2D :=
  ⟨scale.x, 0, 0,
   0, scale.y, 0,
   0, 0, 1⟩

/-- The `rotation` matrix built inside `Transform::to_transformation`,
with `c` and `s` standing for the cosine and sine of the angle in radians. -/
def rotationMatrix (c s : ℚ) : Transformation2D :=
  ⟨c, -s, 0,
   s, c, 0,
   0, 0, 1⟩

/-- Embeds `Transform::to_transformation`:
`displacement.multiply(&scale.multiply(&rotation))`.  `cosA` and `sinA`
embed the `f32` routines `|a| a.to_radians().cos()` and
`|a| a.to_radians().sin()`. -/
def Transform.toTransformation (cosA sinA : ℚ → ℚ) (t : Transform) : Transformation2D :=
  (displacementMatrix t.pos).multiply
    ((scaleMatrix t.scale).multiply (rotationMatrix (cosA t.angle) (sinA t.angle)))

/-- Embeds `Alignment` from `interface.rs`. -/
inductive Alignment where
  | left
  | center
  | right
deriving DecidableEq

/-- Embeds `Text` from `interface.rs`. -/
structure Text where
  content : String
  alignment : Alignment
  width : ℚ
deriving DecidableEq

/-- Embeds `Img` from `interface.rs`. -/
structure Img where
  id : ℕ
  subrect : Option Rect
deriving DecidableEq

/-- Embeds `Bezier` from `interface.rs`; `p0, p1, p2` embed `points: [Point; 3]`. -/
structure Bezier where
  thickness : ℚ
  color : Color
  p0 : Point
  p1 : Point
  p2 : Point
deriving DecidableEq

/-- Embeds `Object` from `interface.rs`. -/
inductive Object where
  | bezier (b : Bezier)
  | img (i : Img)
  | text (t : Text)
deriving DecidableEq

mutual

/-- Embeds `Node` from `interface.rs`: a group in the scene tree. -/
inductive Node : Type where
  | mk (z : ℚ) (transform : Transform) (visible : Bool) (children : List Container)

/-- Embeds `Container` from `interface.rs`: tagged union of a `Node` or a leaf `Object`. -/
inductive Container : Type where
  | node (n : Node)
  | leaf (o : Object)

end

/-- Field accessor for `Node.z`. -/
def Node.z : Node → ℚ
  | .mk z _ _ _ => z

/-- Field accessor for `Node.transform`. -/
def Node.transform : Node → Transform
  | .mk _ t _ _ => t

/-- Field accessor for `Node.visible`. -/
def Node.visible : Node → Bool
  | .mk _ _ v _ => v

/-- Field accessor for `Node.children`. -/
def Node.children : Node → List Container
  | .mk _ _ _ c => c

/-- Embeds `Camera` from `interface.rs`. -/
structure Camera where
  pos : Point
  zoom : ℚ

/-- Embeds `Settings` from `interface.rs`. -/
structure Settings where
  bg : Color
  camera : Camera

/-- Embeds `FrameDescription` from `interface.rs`. -/
structure FrameDescription where
  things : List Node
  settings : Settings

mutual

/-- Size of a scene-tree node (used only as a termination measure for the
queue traversal of `frame_description_to_objects`). -/
def Node.size : Node → Nat
  | .mk _ _ _ children => 1 + Container.sizeList children

/-- Size of a container. -/
def Container.size : Container → Nat
  | .node n => Node.size n
  | .leaf _ => 1

/-- Total size of a list of containers. -/
def Container.sizeList : List Container → Nat
  | [] => 0
  | c :: cs => Container.size c + Container.sizeList cs

end

/-- The node-valued children of a children list, in order (the `Node(node)`
match arms of the traversal loop). -/
def Container.nodesOf : List Container → List Node :=
  List.filterMap fun c => match c with
    | .node n => some n
    | .leaf _ => none

/-- The leaf objects of a children list, in order (the `Leaf(object)`
match arms of the traversal loop). -/
def Container.leavesOf : List Container → List Object :=
  List.filterMap fun c => match c with
    | .node _ => none
    | .leaf o => some o

theorem Node.size_pos (n : Node) : 0 < n.size := by
  cases n with
  | mk z t v c => simp [Node.size]

theorem Container.sizeList_append (a b : List Container) :
    Container.sizeList (a ++ b) = Container.sizeList a + Container.sizeList b := by
  induction a with
  | nil => simp [Container.sizeList]
  | cons c cs ih => simp [Container.sizeList, ih]; ring

theorem Container.sum_nodesOf_le (cs : List Container) :
    ((Container.nodesOf cs).map Node.size).sum ≤ Container.sizeList cs := by
  induction cs with
  | nil => simp [Container.nodesOf, Container.sizeList]
  | cons c cs ih =>
    cases c with
    | node n =>
      simp only [Container.nodesOf, List.filterMap_cons, Container.sizeList] at *
      simp only [List.map_cons, List.sum_cons, Container.size]
      omega
    | leaf o =>
      simp only [Container.nodesOf, List.filterMap_cons, Container.sizeList] at *
      simp only [Container.size]
      omega

theorem Node.size_of_mem_nodesOf {m : Node} {cs : List Container}
    (h : m ∈ Container.nodesOf cs) : Node.size m ≤ Container.sizeList cs := by
  have h1 : Node.size m ≤ ((Container.nodesOf cs).map Node.size).sum := by
    exact List.single_le_sum (fun _ _ => Nat.zero_le _) _ (List.mem_map_of_mem _ h)
  exact le_trans h1 (Container.sum_nodesOf_le cs)

/-- Termination measure for the traversal queue: total size of the queued
nodes. -/
def queueMeasure (q : List (Node × Transformation2D × ℚ)) : Nat :=
  (q.map (fun e => Node.size e.1)).sum

theorem queueMeasure_append (a b : List (Node × Transformation2D × ℚ)) :
    queueMeasure (a ++ b) = queueMeasure a + queueMeasure b := by
  simp [queueMeasure]

/-- The `while let Some(...) = queue.pop_front()` loop of
`frame_description_to_objects` (`render_data.rs`).  Each step pops the
front entry; an invisible node is skipped together with its subtree;
otherwise the accumulated depth and transformation are extended, leaf
children are emitted in child order, and node children are each pushed to
the **front** of the deque (`queue.push_front`), so they end up in front
in reverse child order. -/
def processQueue (cosA sinA : ℚ → ℚ) :
    List (Node × Transformation2D × ℚ) → List (Object × Transformation2D × ℚ)
  | [] => []
  | (n, globalTransform, z) :: rest =>
    if n.visible = false then processQueue cosA sinA rest
    else
      let z2 := n.z + z
      let transformation :=
        globalTransform.multiply (Transform.toTransformation cosA sinA n.transform)
      (Container.leavesOf n.children).map (fun o => (o, transformation, z2)) ++
        processQueue cosA sinA
          (((Container.nodesOf n.children).reverse.map fun m => (m, transformation, z2)) ++ rest)
termination_by q => queueMeasure q
decreasing_by
  · simp only [queueMeasure, List.map_cons, List.sum_cons]
    have := Node.size_pos n
    omega
  · simp only [queueMeasure_append, queueMeasure, List.map_cons, List.sum_cons,
      List.map_append, List.sum_append, List.map_map, List.map_reverse, List.sum_reverse,
      Function.comp_def]
    have h1 : ((Container.nodesOf n.children).map (fun m => Node.size m)).sum
        ≤ Container.sizeList n.children := by
      simpa using Container.sum_nodesOf_le n.children
    have h2 : Node.size n = 1 + Container.sizeList n.children := by
      cases n with
      | mk z t v c => simp [Node.size, Node.children]
    omega

theorem processQueue_nil (cosA sinA : ℚ → ℚ) : processQueue cosA sinA [] = [] := by
  simp [processQueue]

theorem processQueue_cons (cosA sinA : ℚ → ℚ) (n : Node) (globalTransform : Transformation2D)
    (z : ℚ) (rest : List (Node × Transformation2D × ℚ)) :
    processQueue cosA sinA ((n, globalTransform, z) :: rest) =
      if n.visible = false then processQueue cosA sinA rest
      else
        (Container.leavesOf n.children).map
            (fun o => (o, globalTransform.multiply
              (Transform.toTransformation cosA sinA n.transform), n.z + z)) ++
          processQueue cosA sinA
            (((Container.nodesOf n.children).reverse.map fun m =>
                (m, globalTransform.multiply
                  (Transform.toTransformation cosA sinA n.transform), n.z + z)) ++ rest) := by
  rw [processQueue]

/-- Processing a concatenation of two work queues processes the first part
completely (pushed children stay in front of it) and then the second. -/
theorem processQueue_append (cosA sinA : ℚ → ℚ)
    (a b : List (Node × Transformation2D × ℚ)) :
    processQueue cosA sinA (a ++ b) =
      processQueue cosA sinA a ++ processQueue cosA sinA b := by
  have main : ∀ N a b, queueMeasure a ≤ N →
      processQueue cosA sinA (a ++ b) =
        processQueue cosA sinA a ++ processQueue cosA sinA b := by
    intro N
    induction N with
    | zero =>
      intro a b h
      match a with
      | [] => simp [processQueue_nil]
      | (n, g, z) :: rest =>
        exfalso
        have := Node.size_pos n
        simp only [queueMeasure, List.map_cons, List.sum_cons] at h
        omega
    | succ N ih =>
      intro a b h
      match a with
      | [] => simp [processQueue_nil]
      | (n, g, z) :: rest =>
        have hrest : queueMeasure rest ≤ N := by
          have := Node.size_pos n
          simp only [queueMeasure, List.map_cons, List.sum_cons] at h ⊢
          omega
        rw [List.cons_append, processQueue_cons, processQueue_cons]
        by_cases hv : n.visible = false
        · rw [if_pos hv, if_pos hv]
          exact ih rest b hrest
        · rw [if_neg hv, if_neg hv]
          have hkids : queueMeasure
              (((Container.nodesOf n.children).reverse.map fun m =>
                (m, g.multiply (Transform.toTransformation cosA sinA n.transform),
                  n.z + z)) ++ rest) ≤ N := by
            simp only [queueMeasure_append, queueMeasure, List.map_cons, List.sum_cons,
              List.map_append, List.sum_append, List.map_map, List.map_reverse,
              List.sum_reverse, Function.comp_def] at h ⊢
            have h1 : ((Container.nodesOf n.children).map (fun m => Node.size m)).sum
                ≤ Container.sizeList n.children := by
              simpa using Container.sum_nodesOf_le n.children
            have h2 : Node.size n = 1 + Container.sizeList n.children := by
              cases n with
              | mk z t v c => simp [Node.size, Node.children]
            omega
          rw [← List.append_assoc, ih _ b hkids, List.append_assoc]
  exact main (queueMeasure a) a b le_rfl

/-- Depth-first collection of the emitted objects of a single queue entry,
by structural descent: an invisible node yields nothing; a visible node
yields its leaf children (in child order) followed by the collections of
its node children in **reverse** child order (they were pushed one by one
to the front of the deque). -/
def dfsEntry (cosA sinA : ℚ → ℚ) : Node × Transformation2D × ℚ → List (Object × Transformation2D × ℚ)
  | (n, globalTransform, z) =>
    if n.visible = false then []
    else
      let z2 := n.z + z
      let transformation :=
        globalTransform.multiply (Transform.toTransformation cosA sinA n.transform)
      (Container.leavesOf n.children).map (fun o => (o, transformation, z2)) ++
        ((Container.nodesOf n.children).reverse.attach.map fun m =>
          dfsEntry cosA sinA (m.1, transformation, z2)).flatten
termination_by e => Node.size e.1
decreasing_by
  have hm : m.1 ∈ (Container.nodesOf n.children).reverse := m.2
  have hm2 : m.1 ∈ Container.nodesOf n.children := List.mem_reverse.mp hm
  have h1 := Node.size_of_mem_nodesOf hm2
  have h2 : Node.size n = 1 + Container.sizeList n.children := by
    cases n with
    | mk z t v c => simp [Node.size, Node.children]
  omega

theorem dfsEntry_eq (cosA sinA : ℚ → ℚ) (n : Node) (g : Transformation2D) (z : ℚ) :
    dfsEntry cosA sinA (n, g, z) =
      if n.visible = false then []
      else
        (Container.leavesOf n.children).map
            (fun o => (o, g.multiply
              (Transform.toTransformation cosA sinA n.transform), n.z + z)) ++
          ((Container.nodesOf n.children).reverse.map fun m =>
            dfsEntry cosA sinA
              (m, g.multiply (Transform.toTransformation cosA sinA n.transform),
                n.z + z)).flatten := by
  rw [dfsEntry]
  simp [List.attach_map_coe]

/-- The queue loop computes exactly the depth-first collection of its
entries, in order. -/
theorem processQueue_eq_dfs (cosA sinA : ℚ → ℚ)
    (q : List (Node × Transformation2D × ℚ)) :
    processQueue cosA sinA q = (q.map (dfsEntry cosA sinA)).flatten := by
  have single : ∀ N e, Node.size e.1 ≤ N →
      processQueue cosA sinA [e] = dfsEntry cosA sinA e := by
    intro N
    induction N with
    | zero =>
      intro e h
      exfalso
      have := Node.size_pos e.1
      omega
    | succ N ih =>
      intro e h
      obtain ⟨n, g, z⟩ := e
      rw [processQueue_cons, dfsEntry_eq]
      by_cases hv : n.visible = false
      · rw [if_pos hv, if_pos hv]
        exact processQueue_nil _ _
      · rw [if_neg hv, if_neg hv]
        have hlist : ∀ (ms : List Node),
            (∀ m ∈ ms, Node.size m ≤ N) →
            processQueue cosA sinA (ms.map fun m =>
              (m, g.multiply (Transform.toTransformation cosA sinA n.transform), n.z + z)) =
            (ms.map fun m => dfsEntry cosA sinA
              (m, g.multiply (Transform.toTransformation cosA sinA n.transform),
                n.z + z)).flatten := by
          intro ms
          induction ms with
          | nil =>
            intro _
            simp [processQueue_nil]
          | cons m ms ihms =>
            intro hms
            rw [List.map_cons, ← List.singleton_append, processQueue_append,
              ihms (fun x hx => hms x (List.mem_cons_of_mem _ hx)),
              ih (m, g.multiply (Transform.toTransformation cosA sinA n.transform), n.z + z)
                (hms m (List.mem_cons_self _ _))]
            simp
        have hmem : ∀ m ∈ (Container.nodesOf n.children).reverse, Node.size m ≤ N := by
          intro m hm
          have hm2 : m ∈ Container.nodesOf n.children := List.mem_reverse.mp hm
          have h1 := Node.size_of_mem_nodesOf hm2
          have h2 : Node.size n = 1 + Container.sizeList n.children := by
            cases n with
            | mk z t v c => simp [Node.size, Node.children]
          simp only [Node.size] at h
          omega
        rw [List.append_nil, hlist _ hmem]
  induction q with
  | nil => simp [processQueue_nil]
  | cons e q ihq =>
    rw [← List.singleton_append, processQueue_append, ihq,
      single (Node.size e.1) e le_rfl]
    simp

/-- The initial work queue of `frame_description_to_objects`: every root
node of `frame.things`, paired with the identity transform's matrix and
depth `0`. -/
def initialQueue (cosA sinA : ℚ → ℚ) (frame : FrameDescription) :
    List (Node × Transformation2D × ℚ) :=
  frame.things.map fun node => (node, Transform.toTransformation cosA sinA Transform.identity, 0)

/-- The traversal part of `frame_description_to_objects`: the `objects`
vector as it stands when the `while` loop finishes, before sorting. -/
def collectObjects (cosA sinA : ℚ → ℚ) (frame : FrameDescription) :
    List (Object × Transformation2D × ℚ) :=
  processQueue cosA sinA (initialQueue cosA sinA frame)

/-- The comparison used by `objects.sort_by(|(_, _, a), (_, _, b)| a.total_cmp(b))`:
non-decreasing in the accumulated z depth. -/
def zLE (a b : Object × Transformation2D × ℚ) : Prop :=
  a.2.2 ≤ b.2.2

instance : DecidableRel zLE := fun a b => inferInstanceAs (Decidable (a.2.2 ≤ b.2.2))

instance : IsTotal (Object × Transformation2D × ℚ) zLE :=
  ⟨fun a b => le_total a.2.2 b.2.2⟩

instance : IsTrans (Object × Transformation2D × ℚ) zLE :=
  ⟨fun _ _ _ hab hbc => le_trans hab hbc⟩

/-- Embeds `frame_description_to_objects` (`render_data.rs`): run the traversal,
stable-sort the result by accumulated z depth ascending (Rust's
`sort_by` is stable; `List.insertionSort` with `zLE` is the stable sort
by the same key), and drop the depth tags. -/
def frameDescriptionToObjects (cosA sinA : ℚ → ℚ) (frame : FrameDescription) :
    List (Object × Transformation2D) :=
  (((collectObjects cosA sinA frame).insertionSort zLE).map fun e => (e.1, e.2.1))

/-- Embeds `PhysicalSize<u32>` (winit), as used for the output resolution. -/
structure PhysicalSize where
  width : ℕ
  height : ℕ
deriving DecidableEq

/-- Error kinds of the draw-batch compiler.  The repository code has no
error type here: each of these embeds a Rust panic of `RenderData::new`
(a missing `HashMap` key for `missingResource` / `missingBindGroup`, the
explicit `panic!` for `textUnsupported`), which aborts the frame (and,
during export, the export). -/
inductive RenderError where
  | missingResource (id : ℕ)
  | missingBindGroup (id : ℕ)
  | textUnsupported
deriving DecidableEq

/-- Embeds `TextureVertex` (`shader_structs.rs`): a quad vertex with position and
texture coordinates. -/
structure TextureVertex where
  position : Point
  texCoords : Point
deriving DecidableEq

/-- The data the `Object::Bezier` arm of `RenderData::new` hands to the
lyon stroke tessellator: the path (one cubic segment `pathStart` /
`ctrl1` / `ctrl2` / `pathEnd` from `begin` + `cubic_bezier_to`), the
stroke options (`with_line_width`, `with_line_cap(Round)`,
`with_tolerance(0.001)`), and the sRGB color captured by the vertex
constructor (its sRGB→linear conversion happens inside the constructed
`ColorVertex` and is external to the verified claims). -/
structure BezierCmd where
  pathStart : Point
  ctrl1 : Point
  ctrl2 : Point
  pathEnd : Point
  lineWidth : ℚ
  capRound : Bool
  tolerance : ℚ
  color : Color
deriving DecidableEq

/-- The data the `Object::Img` arm of `RenderData::new` produces: the
texture id (which keys the bind group) and the four transformed quad
vertices pushed into `texture_vertices`.  The vertex/index buffer ranges
are bookkeeping over externally produced geometry and are not modelled. -/
structure ImgCmd where
  id : ℕ
  vertices : List TextureVertex
deriving DecidableEq

/-- One entry of `render_order`: a bezier batch is bound to the solid
triangle pipeline, an img batch to the texture pipeline with the bind
group of its id. -/
inductive DrawCmd where
  | bezier (b : BezierCmd)
  | img (i : ImgCmd)
deriving DecidableEq

/-- The local `fn mid` of `RenderData::new`. -/
def mid (a b : Point) : Point :=
  ⟨(a.x + b.x) * 0.5, (a.y + b.y) * 0.5⟩

/-- The local `fn dist` of `RenderData::new`:
`(b[0] - a[0]).powi(2) + (b[1] - a[1]).powi(2)`.  Note that the source
takes no square root: this is the **squared** Euclidean distance. -/
def dist (a b : Point) : ℚ :=
  (b.x - a.x) ^ 2 + (b.y - a.y) ^ 2

/-- One iteration of the `for (object, transformation)` loop of
`RenderData::new`, producing the draw commands of one flattened object.
`images` embeds the `HashMap<u32, DynamicImage>` texture registry (by
width and height, the only data read from it); `bindGroups` embeds key
membership of `texture_pipeline_bind_groups`.  Rust panics are `.error`
results. -/
def processObject (images : ℕ → Option (ℕ × ℕ)) (bindGroups : ℕ → Bool)
    (resolution : PhysicalSize) :
    Object × Transformation2D → Except RenderError (List DrawCmd)
  | (Object.bezier bez, transformation) =>
    let origin := transformation.applyTo ⟨0, 0⟩
    let unitX := transformation.applyTo ⟨1, 0⟩
    let unitY := transformation.applyTo ⟨0, 1⟩
    let xScaling := dist unitX origin
    let yScaling := dist unitY origin
    let scale := min xScaling yScaling
    let q0 := transformation.applyTo bez.p0
    let q1 := transformation.applyTo bez.p1
    let q2 := transformation.applyTo bez.p2
    .ok [DrawCmd.bezier {
      pathStart := q0
      ctrl1 := mid q0 q1
      ctrl2 := mid q1 q2
      pathEnd := q2
      lineWidth := bez.thickness * scale
      capRound := true
      tolerance := 0.001
      color := bez.color }]
  | (Object.img im, transformation) =>
    match images im.id with
    | none => .error (.missingResource im.id)
    | some (texW, texH) =>
      let imgAspect : ℚ := (texH : ℚ) / (texW : ℚ)
      let resAspect : ℚ := (resolution.width : ℚ) / (resolution.height : ℚ)
      let w : ℚ := 1
      let h : ℚ := imgAspect * resAspect
      let subrect := im.subrect.getD ⟨0, 0, 1, 1⟩
      let vertices := ([
        ⟨⟨-w / 2, -h / 2⟩, ⟨subrect.x, 1 - subrect.y⟩⟩,
        ⟨⟨w / 2, -h / 2⟩, ⟨subrect.w, 1 - subrect.y⟩⟩,
        ⟨⟨w / 2, h / 2⟩, ⟨subrect.w, 1 - subrect.h⟩⟩,
        ⟨⟨-w / 2, h / 2⟩, ⟨subrect.x, 1 - subrect.h⟩⟩] : List TextureVertex).map
        fun tv => { position := transformation.applyTo tv.position
                    texCoords := tv.texCoords }
      if bindGroups im.id then
        .ok [DrawCmd.img { id := im.id, vertices := vertices }]
      else
        .error (.missingBindGroup im.id)
  | (Object.text _, _) => .error .textUnsupported

/-- The full `for` loop of `RenderData::new` over the flattened object
list: the first panic aborts everything after it. -/
def compileObjects (images : ℕ → Option (ℕ × ℕ)) (bindGroups : ℕ → Bool)
    (resolution : PhysicalSize) :
    List (Object × Transformation2D) → Except RenderError (List DrawCmd)
  | [] => .ok []
  | x :: xs =>
    match processObject images bindGroups resolution x with
    | .error e => .error e
    | .ok c =>
      match compileObjects images bindGroups resolution xs with
      | .error e => .error e
      | .ok rest => .ok (c ++ rest)

/-- Embeds `RenderData::new`: flatten the frame description and compile the draw
list in flattened order. -/
def renderDataNew (images : ℕ → Option (ℕ × ℕ)) (bindGroups : ℕ → Bool)
    (resolution : PhysicalSize) (cosA sinA : ℚ → ℚ) (frame : FrameDescription) :
    Except RenderError (List DrawCmd) :=
  compileObjects images bindGroups resolution (frameDescriptionToObjects cosA sinA frame)

/-- The frame loop of `export_video` (`video.rs`).  `video_rs::Time` is
embedded as exact rational seconds: `Time::from_nth_of_a_second(fps)` is
`1/fps`, `Time::zero()` is `0`, and `position.aligned_with(&duration).add()`
is exact rational addition (both operands carry the `1/fps` time base, so
the alignment rescale is exact).  Faithful to the source, `position` is
advanced **before** the frame's pts is set and the frame is encoded.  The
result records, per encoded frame, the `on_frame_complete` index and the
presentation timestamp in seconds handed to the encoder. -/
def exportLoop (images : ℕ → Option (ℕ × ℕ)) (bindGroups : ℕ → Bool)
    (resolution : PhysicalSize) (cosA sinA : ℚ → ℚ) (duration : ℚ) :
    List FrameDescription → ℕ → ℚ → Except RenderError (List (ℕ × ℚ))
  | [], _, _ => .ok []
  | f :: fs, frameIndex, position =>
    match renderDataNew images bindGroups resolution cosA sinA f with
    | .error e => .error e
    | .ok _ =>
      match exportLoop images bindGroups resolution cosA sinA duration fs
        (frameIndex + 1) (position + duration) with
      | .error e => .error e
      | .ok rest => .ok ((frameIndex, position + duration) :: rest)

/-- Embeds `export_video` (`video.rs`): duration is `1/fps`, the position starts
at `Time::zero()`, frames are processed in index order starting at 0. -/
def exportVideo (images : ℕ → Option (ℕ × ℕ)) (bindGroups : ℕ → Bool)
    (resolution : PhysicalSize) (cosA sinA : ℚ → ℚ)
    (frames : List FrameDescription) (fps : ℕ) :
    Except RenderError (List (ℕ × ℚ)) :=
  exportLoop images bindGroups resolution cosA sinA (1 / (fps : ℚ)) frames 0 0

/-- Conversion of a timestamp in seconds into integer units of a `1/den`
encoder time base (`time.rescale(time_base, encoder.time_base())`);
exact on every value it is applied to below. -/
def rescalePts (seconds : ℚ) (den : ℕ) : ℤ :=
  round (seconds * den)

theorem compileObjects_append_error (images : ℕ → Option (ℕ × ℕ)) (bindGroups : ℕ → Bool)
    (resolution : PhysicalSize) (x : Object × Transformation2D)
    (e : RenderError) (hx : processObject images bindGroups resolution x = .error e) :
    ∀ (pre post : List (Object × Transformation2D)) (cmds : List DrawCmd),
      compileObjects images bindGroups resolution pre = .ok cmds →
      compileObjects images bindGroups resolution (pre ++ x :: post) = .error e := by
  intro pre
  induction pre with
  | nil =>
    intro post cmds _
    simp [compileObjects, hx]
  | cons y pre ih =>
    intro post cmds hpre
    simp only [List.cons_append, compileObjects] at hpre ⊢
    cases hy : processObject images bindGroups resolution y with
    | error e2 => simp [hy] at hpre
    | ok cy =>
      simp only [hy] at hpre ⊢
      cases hp : compileObjects images bindGroups resolution pre with
      | error e2 => simp [hp] at hpre
      | ok cp => simp [ih post cp hp]

theorem exportLoop_pts (images : ℕ → Option (ℕ × ℕ)) (bindGroups : ℕ → Bool)
    (resolution : PhysicalSize) (cosA sinA : ℚ → ℚ) (d : ℚ) :
    ∀ (frames : List FrameDescription),
      (∀ f ∈ frames, ∃ c,
        renderDataNew images bindGroups resolution cosA sinA f = .ok c) →
      ∀ (frameIndex : ℕ) (position : ℚ),
        exportLoop images bindGroups resolution cosA sinA d frames frameIndex position =
          .ok ((List.range frames.length).map fun k =>
            (frameIndex + k, position + ((k : ℚ) + 1) * d)) := by
  intro frames
  induction frames with
  | nil =>
    intro _ frameIndex position
    simp [exportLoop]
  | cons f fs ih =>
    intro hok frameIndex position
    obtain ⟨c, hc⟩ := hok f (List.mem_cons_self _ _)
    have hrest := ih (fun g hg => hok g (List.mem_cons_of_mem _ hg)) (frameIndex + 1)
      (position + d)
    simp only [exportLoop, hc, hrest, List.length_cons]
    rw [List.range_succ_eq_map]
    simp only [List.map_cons, List.map_map, Except.ok.injEq, List.cons.injEq]
    constructor
    · norm_num
    · apply List.map_congr_left
      intro k _
      simp only [Function.comp_def, Prod.mk.injEq]
      constructor
      · omega
      · push_cast
        ring

theorem exportLoop_error_of_mem (images : ℕ → Option (ℕ × ℕ)) (bindGroups : ℕ → Bool)
    (resolution : PhysicalSize) (cosA sinA : ℚ → ℚ) (d : ℚ)
    (f : FrameDescription) (e : RenderError)
    (hf : renderDataNew images bindGroups resolution cosA sinA f = .error e) :
    ∀ (frames : List FrameDescription), f ∈ frames →
      ∀ (frameIndex : ℕ) (position : ℚ) (l : List (ℕ × ℚ)),
        exportLoop images bindGroups resolution cosA sinA d frames frameIndex position ≠
          .ok l := by
  intro frames
  induction frames with
  | nil =>
    intro hmem
    exact absurd hmem (List.not_mem_nil f)
  | cons g fs ih =>
    intro hmem frameIndex position l
    simp only [exportLoop]
    rcases List.mem_cons.mp hmem with hfg | hmm
    · rw [← hfg, hf]
      simp
    · cases hg : renderDataNew images bindGroups resolution cosA sinA g with
      | error e2 => simp
      | ok c =>
        cases hrest : exportLoop images bindGroups resolution cosA sinA d fs
            (frameIndex + 1) (position + d) with
        | error e2 => simp
        | ok lrest => exact absurd hrest (ih hmm (frameIndex + 1) (position + d) lrest)

theorem filter_orderedInsert_zkey (q : ℚ) (x : Object × Transformation2D × ℚ)
    (l : List (Object × Transformation2D × ℚ)) :
    (l.orderedInsert zLE x).filter (fun e => decide (e.2.2 = q)) =
      (x :: l).filter (fun e => decide (e.2.2 = q)) := by
  induction l with
  | nil => simp [List.orderedInsert]
  | cons b l ih =>
    by_cases hxb : zLE x b
    · simp [List.orderedInsert, hxb]
    · have hbx : b.2.2 < x.2.2 := lt_of_not_le hxb
      simp only [List.orderedInsert, if_neg hxb]
      by_cases hx : x.2.2 = q
      · have hb : ¬(b.2.2 = q) := by
          intro h
          rw [h, ← hx] at hbx
          exact absurd hbx (lt_irrefl _)
        simp [List.filter_cons, hx, hb, ih]
      · simp [List.filter_cons, hx, ih]

theorem filter_insertionSort_zkey (q : ℚ) (l : List (Object × Transformation2D × ℚ)) :
    (l.insertionSort zLE).filter (fun e => decide (e.2.2 = q)) =
      l.filter (fun e => decide (e.2.2 = q)) := by
  induction l with
  | nil => rfl
  | cons x l ih =>
    rw [List.insertionSort, filter_orderedInsert_zkey]
    simp [List.filter_cons, ih]

/-- Modelled from the spec: the breadth-first traversal the spec's §4.2
describes ("breadth-first traversal starting from each root `Node`",
child nodes processed in first-in-first-out order).  Identical to
`processQueue` except that child nodes are enqueued at the **back** of
the queue.  Declared only to compare the spec's claimed order with the
source's `processQueue`, which pushes child nodes to the front. -/
def processQueueBFSSpec (cosA sinA : ℚ → ℚ) :
    List (Node × Transformation2D × ℚ) → List (Object × Transformation2D × ℚ)
  | [] => []
  | (n, globalTransform, z) :: rest =>
    if n.visible = false then processQueueBFSSpec cosA sinA rest
    else
      let z2 := n.z + z
      let transformation :=
        globalTransform.multiply (Transform.toTransformation cosA sinA n.transform)
      (Container.leavesOf n.children).map (fun o => (o, transformation, z2)) ++
        processQueueBFSSpec cosA sinA
          (rest ++ ((Container.nodesOf n.children).map fun m => (m, transformation, z2)))
termination_by q => queueMeasure q
decreasing_by
  · simp only [queueMeasure, List.map_cons, List.sum_cons]
    have := Node.size_pos n
    omega
  · simp only [queueMeasure_append, queueMeasure, List.map_cons, List.sum_cons,
      List.map_append, List.sum_append, List.map_map, Function.comp_def]
    have h1 : ((Container.nodesOf n.children).map (fun m => Node.size m)).sum
        ≤ Container.sizeList n.children := by
      simpa using Container.sum_nodesOf_le n.children
    have h2 : Node.size n = 1 + Container.sizeList n.children := by
      cases n with
      | mk z t v c => simp [Node.size, Node.children]
    omega

theorem processQueueBFSSpec_nil (cosA sinA : ℚ → ℚ) :
    processQueueBFSSpec cosA sinA [] = [] := by
  simp [processQueueBFSSpec]

theorem processQueueBFSSpec_cons (cosA sinA : ℚ → ℚ) (n : Node)
    (globalTransform : Transformation2D) (z : ℚ)
    (rest : List (Node × Transformation2D × ℚ)) :
    processQueueBFSSpec cosA sinA ((n, globalTransform, z) :: rest) =
      if n.visible = false then processQueueBFSSpec cosA sinA rest
      else
        (Container.leavesOf n.children).map
            (fun o => (o, globalTransform.multiply
              (Transform.toTransformation cosA sinA n.transform), n.z + z)) ++
          processQueueBFSSpec cosA sinA
            (rest ++ ((Container.nodesOf n.children).map fun m =>
              (m, globalTransform.multiply
                (Transform.toTransformation cosA sinA n.transform), n.z + z))) := by
  rw [processQueueBFSSpec]

/-- The flattener as the spec describes it, with the breadth-first queue
discipline substituted for the source's; sorting and projection as in
`frameDescriptionToObjects`. -/
def frameDescriptionToObjectsBFSSpec (cosA sinA : ℚ → ℚ) (frame : FrameDescription) :
    List (Object × Transformation2D) :=
  (((processQueueBFSSpec cosA sinA (initialQueue cosA sinA frame)).insertionSort zLE).map
    fun e => (e.1, e.2.1))

/-- Default per-frame settings used by the concrete scenes below. -/
def settings0 : Settings := ⟨⟨0, 0, 0⟩, ⟨⟨0, 0⟩, 1⟩⟩

/-- Concrete leaf: image id 1. -/
def imgLeafB : Object := .img ⟨1, none⟩

/-- Concrete leaf: image id 2. -/
def imgLeafC : Object := .img ⟨2, none⟩

/-- Depth-one child node carrying the image-2 leaf. -/
def nodeC : Node := .mk 0 Transform.identity true [.leaf imgLeafC]

/-- First root: contains only the child node `nodeC`. -/
def rootA : Node := .mk 0 Transform.identity true [.node nodeC]

/-- Second root: carries the image-1 leaf directly. -/
def rootB : Node := .mk 0 Transform.identity true [.leaf imgLeafB]

/-- Scene with two roots: `rootA` (whose leaf sits one level deeper) and
`rootB`. -/
def frameTwoRoots : FrameDescription := ⟨[rootA, rootB], settings0⟩

/-- C2: for every frame description, the list built by
`frame_description_to_objects` is sorted non-decreasingly in the
accumulated z depth (`zLE`), equal-depth entries keep the relative order
in which the traversal emitted them (the filter at each fixed depth is
unchanged by the sort), and the function's result is exactly the
projection of that stable-sorted list. -/
theorem c2_flattened_output_sorted_and_stable (cosA sinA : ℚ → ℚ) (frame : FrameDescription) :
    List.Sorted zLE ((collectObjects cosA sinA frame).insertionSort zLE)
    ∧ (∀ q : ℚ,
        ((collectObjects cosA sinA frame).insertionSort zLE).filter
          (fun e => decide (e.2.2 = q)) =
        (collectObjects cosA sinA frame).filter (fun e => decide (e.2.2 = q)))
    ∧ frameDescriptionToObjects cosA sinA frame =
        ((collectObjects cosA sinA frame).insertionSort zLE).map fun e => (e.1, e.2.1) :=
  ⟨List.sorted_insertionSort zLE _, fun q => filter_insertionSort_zkey q _, rfl⟩

/-- C3: a node whose `visible` field is `false` contributes zero objects:
wherever it sits in the work queue it can be deleted without changing the
traversal's output (so neither it nor anything in its subtree — which is
never enqueued — is emitted), and deleting it from the root list leaves
`frame_description_to_objects` unchanged. -/
theorem c3_invisible_node_contributes_nothing (cosA sinA : ℚ → ℚ)
    (n : Node) (hv : n.visible = false) :
    (∀ (q1 q2 : List (Node × Transformation2D × ℚ)) (g : Transformation2D) (z : ℚ),
      processQueue cosA sinA (q1 ++ (n, g, z) :: q2) = processQueue cosA sinA (q1 ++ q2))
    ∧ (∀ (pre post : List Node) (settings : Settings),
        frameDescriptionToObjects cosA sinA ⟨pre ++ n :: post, settings⟩ =
          frameDescriptionToObjects cosA sinA ⟨pre ++ post, settings⟩) := by
  have hstep : ∀ (g : Transformation2D) (z : ℚ) (q2 : List (Node × Transformation2D × ℚ)),
      processQueue cosA sinA ((n, g, z) :: q2) = processQueue cosA sinA q2 := by
    intro g z q2
    rw [processQueue_cons, if_pos hv]
  constructor
  · intro q1 q2 g z
    rw [processQueue_append, processQueue_append, hstep]
  · intro pre post settings
    unfold frameDescriptionToObjects collectObjects initialQueue
    simp only [List.map_append, List.map_cons]
    rw [processQueue_append, hstep, ← processQueue_append]

/-- Witness for C3 at a concrete scene: an invisible root with a visible
image leaf is pruned, and the resulting flattened output is empty. -/
def invisibleRoot : Node := .mk 0 Transform.identity false [.leaf imgLeafB]

theorem c3_invisible_node_contributes_nothing_witness :
    Node.visible invisibleRoot = false
    ∧ frameDescriptionToObjects (fun _ => 1) (fun _ => 0)
        ⟨[] ++ invisibleRoot :: [], settings0⟩ =
      frameDescriptionToObjects (fun _ => 1) (fun _ => 0) ⟨[] ++ [], settings0⟩
    ∧ frameDescriptionToObjects (fun _ => 1) (fun _ => 0)
        ⟨[invisibleRoot], settings0⟩ = [] := by
  refine ⟨rfl, (c3_invisible_node_contributes_nothing (fun _ => 1) (fun _ => 0)
    invisibleRoot rfl).2 [] [] settings0, ?_⟩
  simp [frameDescriptionToObjects, collectObjects, initialQueue, invisibleRoot,
    processQueue_cons, processQueue_nil, Node.visible, List.insertionSort]

/-- C9 counterexample: the traversal is not breadth-first.  In
`frameTwoRoots` the leaf of the second root sits one level shallower than
the leaf under the first root, so a first-in-first-out (level-order)
traversal emits image 1 before image 2; the source's traversal
(`push_front`) emits image 2 first, and with all depths equal the stable
sort preserves both orders, so the two flattener outputs differ. -/
theorem c9_counterexample_not_breadth_first :
    (frameDescriptionToObjects (fun _ => 1) (fun _ => 0) frameTwoRoots).map Prod.fst =
      [imgLeafC, imgLeafB]
    ∧ (frameDescriptionToObjectsBFSSpec (fun _ => 1) (fun _ => 0) frameTwoRoots).map Prod.fst =
      [imgLeafB, imgLeafC]
    ∧ ([imgLeafC, imgLeafB] : List Object) ≠ [imgLeafB, imgLeafC] := by
  refine ⟨?_, ?_, by decide⟩
  · simp [frameDescriptionToObjects, collectObjects, initialQueue, frameTwoRoots, rootA, rootB,
      nodeC, imgLeafB, imgLeafC, processQueue_cons, processQueue_nil, Node.visible, Node.children,
      Node.z, Container.leavesOf, Container.nodesOf, List.insertionSort, List.orderedInsert, zLE,
      Transform.identity]
  · simp [frameDescriptionToObjectsBFSSpec, initialQueue, frameTwoRoots, rootA, rootB,
      nodeC, imgLeafB, imgLeafC, processQueueBFSSpec_cons, processQueueBFSSpec_nil, Node.visible,
      Node.children, Node.z, Container.leavesOf, Container.nodesOf, List.insertionSort,
      List.orderedInsert, zLE, Transform.identity]

/-- C9 amended: the flattener starts from each root with the identity
transform and depth 0, but processes the deque as a stack (children are
pushed to the front): the collected list equals the depth-first
collection `dfsEntry` of each root in turn, in which a node's subtree
(node children in reverse child order) is finished before its later
siblings and before the remaining roots. -/
theorem c9_traversal_is_depth_first (cosA sinA : ℚ → ℚ) (frame : FrameDescription) :
    collectObjects cosA sinA frame =
      ((frame.things.map fun node =>
        (node, Transform.toTransformation cosA sinA Transform.identity, (0 : ℚ))).map
          (dfsEntry cosA sinA)).flatten := by
  unfold collectObjects initialQueue
  exact processQueue_eq_dfs cosA sinA _

/-- Modelled from the spec: applying the component transforms to a point
in the order the claim asserts — scale first, then rotation, then
translation — with `c`, `s` the cosine and sine of the angle. -/
def scaleThenRotateThenTranslateSpec (t : Transform) (c s : ℚ) (p : Point) : Point :=
  let scaled : Point := ⟨t.scale.x * p.x, t.scale.y * p.y⟩
  let rotated : Point := ⟨c * scaled.x - s * scaled.y, s * scaled.x + c * scaled.y⟩
  ⟨rotated.x + t.pos.x, rotated.y + t.pos.y⟩

/-- C4 counterexample: for the transform with scale `(2,1)` and angle 90°
(whose exact cosine and sine are 0 and 1), the matrix built by
`to_transformation` maps `(1,0)` to `(0,1)` — rotation happens first,
then scale — whereas applying scale first and then rotation (the order
the claim asserts) gives `(0,2)`. -/
theorem c4_counterexample_scale_not_first :
    (Transform.toTransformation (fun _ => 0) (fun _ => 1)
        ⟨⟨0, 0⟩, ⟨2, 1⟩, 90⟩).applyTo ⟨1, 0⟩ = ⟨0, 1⟩
    ∧ scaleThenRotateThenTranslateSpec ⟨⟨0, 0⟩, ⟨2, 1⟩, 90⟩ 0 1 ⟨1, 0⟩ = ⟨0, 2⟩
    ∧ (⟨0, 1⟩ : Point) ≠ ⟨0, 2⟩ := by
  refine ⟨?_, ?_, ?_⟩
  · norm_num [Transform.toTransformation, Transformation2D.multiply, Transformation2D.applyTo,
      displacementMatrix, scaleMatrix, rotationMatrix, Point.mk.injEq]
  · norm_num [scaleThenRotateThenTranslateSpec, Point.mk.injEq]
  · norm_num [Point.mk.injEq]

/-- C4 amended: `to_transformation` builds the single matrix
`displacement · scale · rotation` (matrix product, in that order, however
associated), and under `apply_to`'s convention (points as column vectors
multiplied on the right) that matrix applies **rotation first**, then
scale, then translation. -/
theorem c4_matrix_is_displacement_scale_rotation (cosA sinA : ℚ → ℚ) (t : Transform) :
    t.toTransformation cosA sinA =
      ((displacementMatrix t.pos).multiply (scaleMatrix t.scale)).multiply
        (rotationMatrix (cosA t.angle) (sinA t.angle))
    ∧ ∀ p : Point,
        (t.toTransformation cosA sinA).applyTo p =
          ⟨t.pos.x + t.scale.x * (cosA t.angle * p.x - sinA t.angle * p.y),
           t.pos.y + t.scale.y * (sinA t.angle * p.x + cosA t.angle * p.y)⟩ := by
  constructor
  · simp only [Transform.toTransformation, Transformation2D.multiply, displacementMatrix,
      scaleMatrix, rotationMatrix, Transformation2D.mk.injEq]
    and_intros <;> ring
  · intro p
    simp only [Transform.toTransformation, Transformation2D.multiply, Transformation2D.applyTo,
      displacementMatrix, scaleMatrix, rotationMatrix, Point.mk.injEq]
    and_intros <;> · ring_nf

/-- C5 counterexample: a frame whose only flattened object is a `Text`
leaf does not compile: `RenderData::new` aborts with the text panic
rather than silently skipping the object. -/
def textLeaf : Object := .text ⟨"", .left, 0⟩

/-- Root node holding only the text leaf. -/
def rootText : Node := .mk 0 Transform.identity true [.leaf textLeaf]

theorem c5_counterexample_text_is_a_failure :
    renderDataNew (fun _ => none) (fun _ => false) ⟨1920, 1080⟩
        (fun _ => 1) (fun _ => 0) ⟨[rootText], settings0⟩ =
      .error .textUnsupported := by
  simp [renderDataNew, frameDescriptionToObjects, collectObjects, initialQueue, rootText,
    textLeaf, processQueue_cons, processQueue_nil, Node.visible, Node.children, Node.z,
    Container.leavesOf, Container.nodesOf, List.insertionSort, List.orderedInsert,
    compileObjects, processObject]

/-- C5 amended: a `Text` object reaching the draw-batch compiler is a
hard failure (the source's `panic!("booglanim does not support text yet,
...")`): the compile loop aborts with `textUnsupported` at the text
object, emitting nothing for it and nothing after it. -/
theorem c5_text_aborts_compilation (images : ℕ → Option (ℕ × ℕ)) (bindGroups : ℕ → Bool)
    (resolution : PhysicalSize) (t : Text) (g : Transformation2D)
    (rest : List (Object × Transformation2D)) :
    processObject images bindGroups resolution (Object.text t, g) = .error .textUnsupported
    ∧ compileObjects images bindGroups resolution ((Object.text t, g) :: rest) =
        .error .textUnsupported := by
  exact ⟨rfl, rfl⟩

/-- C6 counterexample: under the uniform scale-by-2 transform, a unit
basis vector moves Euclidean distance 2 (the unique nonnegative number
whose square is the source's `dist` of the moved basis vector), yet the
line width handed to the tessellator for a thickness-1 bezier is
`1 * 4`, not `1 * 2`: the code multiplies by the squared distance. -/
theorem c6_counterexample_squared_distance :
    processObject (fun _ => none) (fun _ => false) ⟨1920, 1080⟩
        (Object.bezier ⟨1, ⟨255, 0, 0⟩, ⟨0, 0⟩, ⟨1, 0⟩, ⟨2, 0⟩⟩,
          Transform.toTransformation (fun _ => 1) (fun _ => 0) ⟨⟨0, 0⟩, ⟨2, 2⟩, 0⟩) =
      .ok [DrawCmd.bezier ⟨⟨0, 0⟩, ⟨1, 0⟩, ⟨3, 0⟩, ⟨4, 0⟩, 4, true, 1/1000, ⟨255, 0, 0⟩⟩]
    ∧ (0 : ℚ) ≤ 2
    ∧ (2 : ℚ) ^ 2 =
        dist ((Transform.toTransformation (fun _ => 1) (fun _ => 0)
            ⟨⟨0, 0⟩, ⟨2, 2⟩, 0⟩).applyTo ⟨1, 0⟩)
          ((Transform.toTransformation (fun _ => 1) (fun _ => 0)
            ⟨⟨0, 0⟩, ⟨2, 2⟩, 0⟩).applyTo ⟨0, 0⟩)
    ∧ (4 : ℚ) ≠ 1 * 2 := by
  refine ⟨?_, by norm_num, ?_, by norm_num⟩
  · norm_num [processObject, mid, dist, Transform.toTransformation, Transformation2D.multiply,
      Transformation2D.applyTo, displacementMatrix, scaleMatrix, rotationMatrix,
      Point.mk.injEq, BezierCmd.mk.injEq]
  · norm_num [dist, Transform.toTransformation, Transformation2D.multiply,
      Transformation2D.applyTo, displacementMatrix, scaleMatrix, rotationMatrix]

/-- C6 amended: for every bezier, the line width passed in the stroke
options equals the bezier's thickness multiplied by the **minimum over
the two unit basis vectors of the squared** Euclidean distance they move
under the effective transform (the source's `dist` takes no square
root, and the smaller of the two axis factors is used). -/
theorem c6_line_width_min_squared_distance (images : ℕ → Option (ℕ × ℕ))
    (bindGroups : ℕ → Bool) (resolution : PhysicalSize) (bez : Bezier)
    (g : Transformation2D) :
    processObject images bindGroups resolution (Object.bezier bez, g) =
      .ok [DrawCmd.bezier {
        pathStart := g.applyTo bez.p0
        ctrl1 := mid (g.applyTo bez.p0) (g.applyTo bez.p1)
        ctrl2 := mid (g.applyTo bez.p1) (g.applyTo bez.p2)
        pathEnd := g.applyTo bez.p2
        lineWidth := bez.thickness *
          min (dist (g.applyTo ⟨1, 0⟩) (g.applyTo ⟨0, 0⟩))
            (dist (g.applyTo ⟨0, 1⟩) (g.applyTo ⟨0, 0⟩))
        capRound := true
        tolerance := 0.001
        color := bez.color }] := rfl

/-- C7: an `Img` whose id is absent from the texture registry aborts the
frame's compilation with the missing-resource failure (the source's
`&images[&img.id]` panic), rather than being silently dropped: any
successfully compiled prefix is discarded and the whole compile returns
the error; and a frame that fails to compile makes the enclosing export
fail as well. -/
theorem c7_missing_image_aborts :
    (∀ (images : ℕ → Option (ℕ × ℕ)) (bindGroups : ℕ → Bool) (resolution : PhysicalSize)
        (im : Img) (g : Transformation2D) (pre post : List (Object × Transformation2D))
        (cmds : List DrawCmd),
      images im.id = none →
      compileObjects images bindGroups resolution pre = .ok cmds →
      compileObjects images bindGroups resolution (pre ++ (Object.img im, g) :: post) =
        .error (.missingResource im.id))
    ∧ (∀ (images : ℕ → Option (ℕ × ℕ)) (bindGroups : ℕ → Bool) (resolution : PhysicalSize)
        (cosA sinA : ℚ → ℚ) (frames : List FrameDescription) (fps : ℕ)
        (f : FrameDescription) (e : RenderError) (l : List (ℕ × ℚ)),
      f ∈ frames →
      renderDataNew images bindGroups resolution cosA sinA f = .error e →
      exportVideo images bindGroups resolution cosA sinA frames fps ≠ .ok l) := by
  constructor
  · intro images bindGroups resolution im g pre post cmds himg hpre
    exact compileObjects_append_error images bindGroups resolution (Object.img im, g)
      (.missingResource im.id) (by simp [processObject, himg]) pre post cmds hpre
  · intro images bindGroups resolution cosA sinA frames fps f e l hmem hf
    unfold exportVideo
    exact exportLoop_error_of_mem images bindGroups resolution cosA sinA _ f e hf
      frames hmem 0 0 l

theorem c7_missing_image_aborts_witness :
    ((fun _ => (none : Option (ℕ × ℕ))) 99 = none)
    ∧ compileObjects (fun _ => none) (fun _ => false) ⟨1920, 1080⟩
        ([] ++ (Object.img ⟨99, none⟩, ⟨1, 0, 0, 0, 1, 0, 0, 0, 1⟩) :: []) =
      .error (.missingResource 99) :=
  ⟨rfl, c7_missing_image_aborts.1 (fun _ => none) (fun _ => false) ⟨1920, 1080⟩
    ⟨99, none⟩ ⟨1, 0, 0, 0, 1, 0, 0, 0, 1⟩ [] [] [] rfl rfl⟩

/-- C8: for every bezier under effective transform `g`, the path handed
to the tessellator is the cubic whose control points are `q0`,
`mid(q0,q1)`, `mid(q1,q2)`, `q2` with `qi = g(pi)`: the three input
points are transformed first, then promoted through the midpoints. -/
theorem c8_quadratic_to_cubic_promotion (images : ℕ → Option (ℕ × ℕ))
    (bindGroups : ℕ → Bool) (resolution : PhysicalSize) (bez : Bezier)
    (g : Transformation2D) :
    ∃ (lw : ℚ) (cap : Bool) (tol : ℚ) (col : Color),
      processObject images bindGroups resolution (Object.bezier bez, g) =
        .ok [DrawCmd.bezier ⟨g.applyTo bez.p0,
          mid (g.applyTo bez.p0) (g.applyTo bez.p1),
          mid (g.applyTo bez.p1) (g.applyTo bez.p2),
          g.applyTo bez.p2, lw, cap, tol, col⟩] :=
  ⟨_, _, _, _, rfl⟩

/-- C10: for every image with a registered texture and bind group, the
emitted quad's four texture coordinates are
`(r.x, 1-r.y), (r.w, 1-r.y), (r.w, 1-r.h), (r.x, 1-r.h)` for
`r = subrect.getD {x:0,y:0,w:1,h:1}`: `w` and `h` are consumed directly
as the far-corner coordinates, every vertical coordinate is flipped as
`1 - value`, and a missing subrect yields exactly the full unit rect's
corners. -/
theorem c10_texture_coordinates (images : ℕ → Option (ℕ × ℕ)) (bindGroups : ℕ → Bool)
    (resolution : PhysicalSize) (im : Img) (g : Transformation2D) (texW texH : ℕ)
    (himg : images im.id = some (texW, texH)) (hbg : bindGroups im.id = true) :
    ∃ cmd : ImgCmd,
      processObject images bindGroups resolution (Object.img im, g) = .ok [DrawCmd.img cmd]
      ∧ cmd.id = im.id
      ∧ cmd.vertices.map TextureVertex.texCoords =
          [⟨(im.subrect.getD ⟨0, 0, 1, 1⟩).x, 1 - (im.subrect.getD ⟨0, 0, 1, 1⟩).y⟩,
           ⟨(im.subrect.getD ⟨0, 0, 1, 1⟩).w, 1 - (im.subrect.getD ⟨0, 0, 1, 1⟩).y⟩,
           ⟨(im.subrect.getD ⟨0, 0, 1, 1⟩).w, 1 - (im.subrect.getD ⟨0, 0, 1, 1⟩).h⟩,
           ⟨(im.subrect.getD ⟨0, 0, 1, 1⟩).x, 1 - (im.subrect.getD ⟨0, 0, 1, 1⟩).h⟩]
      ∧ (im.subrect = none →
          cmd.vertices.map TextureVertex.texCoords =
            [⟨0, 1⟩, ⟨1, 1⟩, ⟨1, 0⟩, ⟨0, 0⟩]) := by
  simp only [processObject, himg, hbg, if_true]
  refine ⟨_, rfl, rfl, ?_, ?_⟩
  · simp
  · intro hnone
    simp [hnone]

theorem c10_texture_coordinates_witness :
    ∃ cmd : ImgCmd,
      processObject (fun i => if i = 1 then some (2, 1) else none) (fun i => i == 1)
          ⟨1920, 1080⟩ (Object.img ⟨1, none⟩, ⟨1, 0, 0, 0, 1, 0, 0, 0, 1⟩) =
        .ok [DrawCmd.img cmd]
      ∧ cmd.id = Img.id ⟨1, none⟩
      ∧ cmd.vertices.map TextureVertex.texCoords =
          [⟨(Option.getD (Img.subrect ⟨1, none⟩) ⟨0, 0, 1, 1⟩).x,
              1 - (Option.getD (Img.subrect ⟨1, none⟩) ⟨0, 0, 1, 1⟩).y⟩,
           ⟨(Option.getD (Img.subrect ⟨1, none⟩) ⟨0, 0, 1, 1⟩).w,
              1 - (Option.getD (Img.subrect ⟨1, none⟩) ⟨0, 0, 1, 1⟩).y⟩,
           ⟨(Option.getD (Img.subrect ⟨1, none⟩) ⟨0, 0, 1, 1⟩).w,
              1 - (Option.getD (Img.subrect ⟨1, none⟩) ⟨0, 0, 1, 1⟩).h⟩,
           ⟨(Option.getD (Img.subrect ⟨1, none⟩) ⟨0, 0, 1, 1⟩).x,
              1 - (Option.getD (Img.subrect ⟨1, none⟩) ⟨0, 0, 1, 1⟩).h⟩]
      ∧ (Img.subrect ⟨1, none⟩ = none →
          cmd.vertices.map TextureVertex.texCoords =
            [⟨0, 1⟩, ⟨1, 1⟩, ⟨1, 0⟩, ⟨0, 0⟩]) :=
  c10_texture_coordinates (fun i => if i = 1 then some (2, 1) else none) (fun i => i == 1)
    ⟨1920, 1080⟩ ⟨1, none⟩ ⟨1, 0, 0, 0, 1, 0, 0, 0, 1⟩ 2 1 rfl rfl

/-- Scene with no roots at all (flattens to no objects and always
compiles). -/
def frameEmptyScene : FrameDescription := ⟨[], settings0⟩

/-- C1 counterexample: exporting a single (empty) frame at fps 30 hands
frame 0 to the encoder at presentation timestamp `1/30` seconds — not
`0` as the claim requires for `K = 0`.  In the standard 90 kHz H.264
time base this timestamp is 3000 units, which is not within one
time-base unit of the claimed 0. -/
theorem c1_counterexample_first_frame_pts_not_zero :
    exportVideo (fun _ => none) (fun _ => false) ⟨1920, 1080⟩ (fun _ => 1) (fun _ => 0)
        [frameEmptyScene] 30 = .ok [(0, 1/30)]
    ∧ ((1 : ℚ)/30) ≠ 0
    ∧ rescalePts (1/30) 90000 = 3000
    ∧ ¬((3000 : ℤ) ≤ 1) := by
  refine ⟨?_, by norm_num, ?_, by norm_num⟩
  · simp [exportVideo, exportLoop, renderDataNew, frameDescriptionToObjects, collectObjects,
      initialQueue, frameEmptyScene, processQueue_nil, compileObjects, List.insertionSort]
  · have h : ((1 : ℚ)/30) * (90000 : ℕ) = ((3000 : ℤ) : ℚ) := by norm_num
    rw [rescalePts, h, round_intCast]

/-- C1 amended: `export_video` advances the position counter by one frame
duration **before** encoding each frame, so frame `K` (0-based) is handed
to the encoder at presentation timestamp `(K+1)/fps` seconds; in
particular the first frame's timestamp is `1/fps`, not 0. -/
theorem c1_export_timestamps_off_by_one (images : ℕ → Option (ℕ × ℕ))
    (bindGroups : ℕ → Bool) (resolution : PhysicalSize) (cosA sinA : ℚ → ℚ)
    (frames : List FrameDescription) (fps : ℕ) (hfps : 0 < fps)
    (hok : ∀ f ∈ frames, ∃ c,
      renderDataNew images bindGroups resolution cosA sinA f = .ok c) :
    exportVideo images bindGroups resolution cosA sinA frames fps =
      .ok ((List.range frames.length).map fun k => (k, ((k : ℚ) + 1) / (fps : ℚ))) := by
  unfold exportVideo
  rw [exportLoop_pts images bindGroups resolution cosA sinA _ frames hok 0 0]
  congr 1
  apply List.map_congr_left
  intro k _
  simp only [Prod.mk.injEq]
  constructor
  · omega
  · rw [zero_add, mul_one_div]

theorem c1_export_timestamps_off_by_one_witness :
    0 < 30
    ∧ exportVideo (fun _ => none) (fun _ => false) ⟨1920, 1080⟩ (fun _ => 1) (fun _ => 0)
        [frameEmptyScene] 30 =
      .ok ((List.range (List.length [frameEmptyScene])).map
        fun k => (k, ((k : ℚ) + 1) / ((30 : ℕ) : ℚ))) := by
  refine ⟨by norm_num, c1_export_timestamps_off_by_one (fun _ => none) (fun _ => false)
    ⟨1920, 1080⟩ (fun _ => 1) (fun _ => 0) [frameEmptyScene] 30 (by norm_num) ?_⟩
  intro f hf
  rw [List.mem_singleton] at hf
  subst hf
  exact ⟨[], by simp [renderDataNew, frameDescriptionToObjects, collectObjects, initialQueue,
    frameEmptyScene, processQueue_nil, compileObjects, List.insertionSort]⟩

end Booglanim
